import Mathlib

/-!
Shallow embedding of the Dataset_Creator repository (Elias2660/Dataset_Creator)
and a verification of its specification claims.

Embedded source functions:
* `src/dataset_checker.py`, `check_dataset` (the validator/repairer),
* `src/Make_Dataset.py`, `process_frame_count`, `process_log_files`,
  `create_dataset` and `add_buffering` (the timeline merger).

Modelling conventions:
* a pandas cell that can hold `NaN` is an `Option` value (`none` = `NaN`);
* Python exceptions are `Except String` errors, labelled with the kind of
  exception the interpreter would raise (`"ValueError"` for `int(NaN)` and
  `astype(int)` on a column containing `NaN`, `"IndexError"` for
  `.values[0]` on an empty selection, `"KeyError"` for `.loc[-1, ...]`);
* timestamps are absolute integer microseconds; `pandas.Timedelta.seconds`
  is the seconds component of the normalized timedelta, i.e.
  `(total microseconds mod 86400*10^6) / 10^6` rounded down;
* `fps` is an integer (the `.h264` code path uses the integer `--fps`
  argument, default 25), so Python's `round` is the identity on the products
  taken in `create_dataset`;
* `DataFrame.sort_values(by="time")` is modelled by a comparison sort on the
  `time` field (`List.insertionSort`);
* the timestamp parsing done by `pd.to_datetime` (an I/O-boundary concern) is
  abstracted by a caller-supplied `parse : String → Int` in
  `processFrameCount`, and the log files arrive as already-parsed
  timestamp lists in `processLogFiles`, exactly the values the parsed
  columns would hold.
-/

namespace DC

/-- A row of a dataset CSV as `check_dataset` reads it back:
column 0 = filename, 1 = class, 2 = beginframe, 3 = endframe.
Any cell may be null. -/
structure Row where
  filename : Option String
  cls : Option Int
  beginframe : Option Int
  endframe : Option Int
  deriving DecidableEq, Repr

/-- `counts[key == counts["filename"]]["framecount"].values[0]`:
select the first counts row whose filename equals `key`.  A `none` key is
pandas `NaN`, which compares unequal to every filename, so the selection is
empty and `.values[0]` raises `IndexError`; likewise when the filename is
absent from the counts table. -/
def lookupFc (counts : List (String × Int)) (key : Option String) : Except String Int :=
  match key with
  | none => .error "IndexError"
  | some s =>
    match counts.find? (fun p => p.fst == s) with
    | some p => .ok p.snd
    | none => .error "IndexError"

/-- The fault checks of `check_dataset` lines 65-82, applied to the (already
range-clamped) row: any null field, or `begin_frame >= end_frame`, or a
negative frame, marks the row faulty. -/
def rowFaulty (r : Row) : Bool :=
  if r.filename.isNone || r.cls.isNone || r.beginframe.isNone || r.endframe.isNone then
    true
  else
    let b := r.beginframe.getD 0
    let e := r.endframe.getD 0
    if b ≥ e then true
    else if b < 0 || e < 0 then true
    else false

/-- One iteration of the `check_dataset` row loop (lines 55-82):
`int(dataset.iloc[i, 3])` raises `ValueError` on a null end frame, then the
counts lookup runs (possibly raising `IndexError`), then the end frame is
clamped down to the recorded frame count if it exceeds it, and finally the
fault checks classify the clamped row.  Returns the row as left in the
`DataFrame` and whether its index joins `faulty_rows`. -/
def checkRow (counts : List (String × Int)) (r : Row) : Except String (Row × Bool) :=
  match r.endframe with
  | none => .error "ValueError"
  | some e =>
    match lookupFc counts r.filename with
    | .error s => .error s
    | .ok fcv =>
      let r1 := if e > fcv then { r with endframe := some fcv } else r
      .ok (r1, rowFaulty r1)

/-- The full `for i in range(len(dataset))` loop of `check_dataset`, carrying
the running row index: returns the mutated dataset together with the
collected `faulty_rows` index list. -/
def checkLoop (counts : List (String × Int)) : List Row → Nat → Except String (List Row × List Nat)
  | [], _ => .ok ([], [])
  | r :: rest, i =>
    match checkRow counts r with
    | .error s => .error s
    | .ok (r1, f) =>
      match checkLoop counts rest (i + 1) with
      | .error s => .error s
      | .ok (rest1, faulty) => .ok (r1 :: rest1, if f then i :: faulty else faulty)

/-- `dataset.drop(index=faulty_rows)` followed by `reset_index`: remove the
rows whose positional label (starting at `i`) appears in `idxs`, keeping the
remaining rows in order. -/
def dropIndicesFrom (idxs : List Nat) : Nat → List Row → List Row
  | _, [] => []
  | i, r :: rest =>
    if i ∈ idxs then dropIndicesFrom idxs (i + 1) rest
    else r :: dropIndicesFrom idxs (i + 1) rest

/-- Observable outcome of one `check_dataset` run:
`cleaned` is the in-memory dataset when the function returns (clamped, with
faulty rows dropped), `fileAfter` is the content persisted at `path`
afterwards, and `backup` is the content of `path + ".bak"` if one was made. -/
structure CheckResult where
  cleaned : List Row
  fileAfter : List Row
  backup : Option (List Row)
  deriving DecidableEq, Repr

/-- `check_dataset(path, counts)` (lines 45-97).  `table` is the parsed
content of the file at `path`.  When no faulty row is found the function
returns early: nothing is written and no backup is made, so the persisted
table keeps its original (unclamped) values.  Otherwise the original file is
moved to the backup and the cleaned dataset is written in its place. -/
def checkDataset (counts : List (String × Int)) (table : List Row) : Except String CheckResult :=
  match checkLoop counts table 0 with
  | .error s => .error s
  | .ok (ds, faulty) =>
    if faulty = [] then
      .ok ⟨ds, table, none⟩
    else
      .ok ⟨dropIndicesFrom faulty 0 ds, dropIndicesFrom faulty 0 ds, some table⟩

/-- Structural effectful map over `Except String`, the evaluation order of a
Python loop that may raise: stop at the first raised exception. -/
def exMap {α β : Type} (f : α → Except String β) : List α → Except String (List β)
  | [] => .ok []
  | a :: l =>
    match f a with
    | .error s => .error s
    | .ok b =>
      match exMap f l with
      | .error s => .error s
      | .ok l' => .ok (b :: l')

/-- The positions (counted from `i`) of the `true`-flagged entries of a
row/flag list: the `faulty_rows` list that the `check_dataset` loop builds. -/
def flaggedIdx : Nat → List (Row × Bool) → List Nat
  | _, [] => []
  | i, p :: rest => if p.2 then i :: flaggedIdx (i + 1) rest else flaggedIdx (i + 1) rest

/-- The post-repair row invariant: no null field and
`0 ≤ begin_frame < end_frame ≤ total_frame_count(filename)`. -/
def cleanRow (counts : List (String × Int)) (r : Row) : Prop :=
  r.filename.isSome ∧ r.cls.isSome ∧
    ∃ b e fcv, r.beginframe = some b ∧ r.endframe = some e ∧
      lookupFc counts r.filename = .ok fcv ∧ 0 ≤ b ∧ b < e ∧ e ≤ fcv

/-- A row of the in-flight merged `DataFrame` inside `create_dataset`:
columns `time`, `filename`, `class`, `beginframe`, `endframe`.  `time` is in
absolute microseconds; a `none` is a pandas `NaN`. -/
structure MRow where
  time : Int
  filename : Option String
  cls : Option Int
  beginframe : Option Int
  endframe : Option Int
  deriving DecidableEq, Repr

/-- A fully resolved dataset row, after `astype(int)` on the class and frame
columns and `drop(columns=["time"])`. -/
structure DRow where
  filename : String
  cls : Int
  beginframe : Int
  endframe : Int
  deriving DecidableEq, Repr

instance : Inhabited DRow := ⟨⟨"", 0, 0, 0⟩⟩

/-- `pandas.Timedelta.seconds` of a timedelta of `d` microseconds: the
seconds component of the normalized (days, seconds, microseconds)
decomposition, always in `[0, 86400)` (so a negative timedelta wraps). -/
def tdSeconds (d : Int) : Int := (d.emod 86400000000).ediv 1000000

/-- `process_frame_count`: one video-anchor row per counts entry — `time`
parsed from the (extension-stripped) filename, `filename` the original
string, class and endframe `NaN`, beginframe 0.  The `pd.to_datetime`
string parsing is abstracted by `parse`. -/
def processFrameCount (counts : List (String × Int)) (parse : String → Int) : List MRow :=
  counts.map (fun c => ⟨parse c.fst, some c.fst, none, some 0, none⟩)

/-- `process_log_files`: one class-anchor row per parsed log timestamp,
carrying the stream's class number; filename and both frames `NaN`. -/
def processLogFiles (times : List Int) (classNum : Int) : List MRow :=
  times.map (fun t => ⟨t, none, some classNum, none, none⟩)

/-- The comparison used by `dataset.sort_values(by="time")`. -/
def timeLE (a b : MRow) : Prop := a.time ≤ b.time

instance : DecidableRel timeLE := fun a b => Int.decLe a.time b.time

instance : IsTotal MRow timeLE := ⟨fun a b => Int.le_total a.time b.time⟩

instance : IsTrans MRow timeLE := ⟨fun _ _ _ hab hbc => Int.le_trans hab hbc⟩

/-- `dataset["filename"].ffill()`: forward-fill the filename column,
carrying the most recent non-null filename in `cur`. -/
def ffillAux (cur : Option String) : List MRow → List MRow
  | [] => []
  | r :: rest =>
    match r.filename with
    | some s => { r with filename := some s } :: ffillAux (some s) rest
    | none => { r with filename := cur } :: ffillAux cur rest

/-- Lines 126-130 of `create_dataset`: concatenate the processed counts and
processed log frames, sort by time, forward-fill filenames, and drop the
rows whose filename is still null (class events before any video). -/
def mergedRows (processed : List MRow) (args : List (List MRow)) : List MRow :=
  (ffillAux none (List.insertionSort timeLE (processed ++ args.flatten))).filter
    (fun r => r.filename.isSome)

/-- The frame part of one iteration of the `create_dataset` resolution loop
(lines 137-179), for the row `r` at index `i`.  `prev` is the already
updated row `i-1` (`none` when `i = 0`; reading `dataset.loc[-1, ...]`
raises `KeyError`), `next` is the original row `i+1` (`none` when `i` is the
last index).  pandas `NaN` comparison semantics: `NaN == 0` is false and
`NaN != 0` is true, and `NaN + x` is `NaN` (hence the `Option.map`). -/
def resolveFrames (fc : List (String × Int)) (FPS : Int)
    (prev : Option MRow) (r : MRow) : Option MRow → Except String MRow
  | none =>
    match lookupFc fc r.filename with
    | .error s => .error s
    | .ok v =>
      if r.beginframe ≠ some 0 then
        match prev with
        | none => .error "KeyError"
        | some p => .ok { r with endframe := some v, beginframe := p.endframe }
      else .ok { r with endframe := some v }
  | some nx =>
    if r.beginframe = none ∧ r.endframe = none then
      match prev with
      | none => .error "KeyError"
      | some p =>
        .ok { r with beginframe := p.endframe,
                     endframe := p.endframe.map
                       (fun pe => pe + tdSeconds (nx.time - r.time) * FPS) }
    else if nx.beginframe = some 0 then
      match lookupFc fc r.filename with
      | .error s => .error s
      | .ok v => .ok { r with endframe := some v }
    else if prev = none ∧ r.endframe = none then
      .ok { r with endframe := some (tdSeconds (nx.time - r.time) * FPS) }
    else if r.beginframe = some 0 ∧ r.endframe = none then
      .ok { r with endframe := some (tdSeconds (nx.time - r.time) * FPS) }
    else .ok r

/-- The class part of the same loop iteration (lines 182-187): the first row
defaults a `NaN` class to 0, later rows inherit the (already updated)
previous row's class. -/
def resolveClass (prev : Option MRow) (r : MRow) : MRow :=
  if r.cls = none then
    match prev with
    | none => { r with cls := some 0 }
    | some p => { r with cls := p.cls }
  else r

/-- One full iteration of the `create_dataset` resolution loop. -/
def resolveRow (fc : List (String × Int)) (FPS : Int)
    (prev : Option MRow) (r : MRow) (next : Option MRow) : Except String MRow :=
  match resolveFrames fc FPS prev r next with
  | .error s => .error s
  | .ok rf => .ok (resolveClass prev rf)

/-- The whole `for i in range(len(dataset))` loop of `create_dataset`.
Iteration `i` writes only row `i`, reads the updated row `i-1` and the
original row `i+1`, so the loop is this recursion carrying the updated
predecessor. -/
def resolveAll (fc : List (String × Int)) (FPS : Int) :
    Option MRow → List MRow → Except String (List MRow)
  | _, [] => .ok []
  | prev, r :: rest =>
    match resolveRow fc FPS prev r rest.head? with
    | .error s => .error s
    | .ok r1 =>
      match resolveAll fc FPS (some r1) rest with
      | .error s => .error s
      | .ok rest1 => .ok (r1 :: rest1)

/-- `astype(int)` on the class/frame columns plus the final row shape: fails
(pandas raises a `ValueError` subclass) if any value is still `NaN`. -/
def toDRow (r : MRow) : Except String DRow :=
  match r.filename, r.cls, r.beginframe, r.endframe with
  | some f, some c, some b, some e => .ok ⟨f, c, b, e⟩
  | _, _, _, _ => .error "ValueError"

/-- `create_dataset(frame_counts, processed_counts, FPS, *args)`
(lines 112-194). -/
def createDataset (frame_counts : List (String × Int)) (processed : List MRow)
    (FPS : Int) (args : List (List MRow)) : Except String (List DRow) :=
  match resolveAll frame_counts FPS none (mergedRows processed args) with
  | .error s => .error s
  | .ok out => exMap toDRow out

/-- Write position `i` of a list through `g` (a single `.loc[i, col] = v`
assignment); out-of-range writes leave the list unchanged. -/
def modAt {α : Type} (l : List α) (i : Nat) (g : α → α) : List α :=
  match l, i with
  | [], _ => []
  | a :: rest, 0 => g a :: rest
  | a :: rest, n + 1 => a :: modAt rest n g

/-- One iteration of the `add_buffering` loop (lines 212-234): all reads come
from the original `dset`, all writes go to the copy `buf`.  A class change
takes precedence over a filename change; only `beginframe`/`endframe` cells
are ever written. -/
def bufStep (dset : List DRow) (starting_frame end_frame_buffer frame_interval : Int)
    (buf : List DRow) (i : Nat) : List DRow :=
  if i = 0 then
    modAt buf 0 (fun r => { r with beginframe := starting_frame })
  else if (dset.getD i default).cls ≠ (dset.getD (i - 1) default).cls then
    modAt
      (modAt buf (i - 1) (fun r =>
        { r with endframe := (dset.getD (i - 1) default).endframe - frame_interval }))
      i (fun r =>
        { r with beginframe := (dset.getD (i - 1) default).endframe + frame_interval })
  else if (dset.getD i default).filename ≠ (dset.getD (i - 1) default).filename then
    modAt
      (modAt buf i (fun r => { r with beginframe := starting_frame }))
      (i - 1) (fun r =>
        { r with endframe := (dset.getD (i - 1) default).endframe - end_frame_buffer })
  else buf

/-- `add_buffering(dset, starting_frame, end_frame_buffer, frame_interval)`
(lines 197-236). -/
def addBuffering (dset : List DRow)
    (starting_frame end_frame_buffer frame_interval : Int) : List DRow :=
  (List.range dset.length).foldl
    (bufStep dset starting_frame end_frame_buffer frame_interval) dset

/-- The merger pipeline as run by `Make_Dataset.py`'s main block:
`create_dataset` followed by `add_buffering`. -/
def makeDataset (frame_counts : List (String × Int)) (processed : List MRow)
    (FPS : Int) (args : List (List MRow))
    (starting_frame end_frame_buffer frame_interval : Int) : Except String (List DRow) :=
  match createDataset frame_counts processed FPS args with
  | .error s => .error s
  | .ok d => .ok (addBuffering d starting_frame end_frame_buffer frame_interval)

/-- Writing a resolved row to `dataset.csv` and reading it back in
`check_dataset`: every cell is present. -/
def toRow (d : DRow) : Row :=
  ⟨some d.filename, some d.cls, some d.beginframe, some d.endframe⟩

/-- Shape of a `process_frame_count` output row (a video anchor). -/
def videoShaped (r : MRow) : Prop :=
  r.filename.isSome ∧ r.beginframe = some 0 ∧ r.endframe = none

/-- Shape of a `process_log_files` output row (a class anchor). -/
def logShaped (r : MRow) : Prop :=
  r.filename = none ∧ r.cls.isSome ∧ r.beginframe = none ∧ r.endframe = none

/-- A class-anchor row after forward-filling: frames still `NaN`, class
known, filename inherited. -/
def filledShaped (r : MRow) : Prop :=
  r.cls.isSome ∧ r.beginframe = none ∧ r.endframe = none

/-- A row every column of which has been resolved (no `NaN` left). -/
def resolvedRow (r : MRow) : Prop :=
  r.filename.isSome ∧ r.cls.isSome ∧ r.beginframe.isSome ∧ r.endframe.isSome

end DC

namespace DC

theorem exMap_ok_length {α β : Type} {f : α → Except String β} :
    ∀ {l : List α} {out : List β}, exMap f l = .ok out → out.length = l.length := by
  intro l
  induction l with
  | nil => intro out h; simp [exMap] at h; simp [← h]
  | cons a rest ih =>
    intro out h
    simp only [exMap] at h
    cases hf : f a with
    | error s => rw [hf] at h; exact absurd h (by simp)
    | ok b =>
      rw [hf] at h
      cases hrest : exMap f rest with
      | error s => rw [hrest] at h; exact absurd h (by simp)
      | ok l' =>
        rw [hrest] at h
        simp only [Except.ok.injEq] at h
        subst h
        simp [ih hrest]

theorem exMap_ok_mem {α β : Type} {f : α → Except String β} :
    ∀ {l : List α} {out : List β}, exMap f l = .ok out →
      ∀ b ∈ out, ∃ a ∈ l, f a = .ok b := by
  intro l
  induction l with
  | nil => intro out h; simp [exMap] at h; simp [h]
  | cons a rest ih =>
    intro out h
    simp only [exMap] at h
    cases hf : f a with
    | error s => rw [hf] at h; exact absurd h (by simp)
    | ok b0 =>
      rw [hf] at h
      cases hrest : exMap f rest with
      | error s => rw [hrest] at h; exact absurd h (by simp)
      | ok l' =>
        rw [hrest] at h
        simp only [Except.ok.injEq] at h
        subst h
        intro b hb
        rcases List.mem_cons.mp hb with hb | hb
        · exact ⟨a, List.mem_cons_self _ _, hb ▸ hf⟩
        · rcases ih hrest b hb with ⟨a', ha', hfa'⟩
          exact ⟨a', List.mem_cons_of_mem _ ha', hfa'⟩

theorem exMap_ok_get {α β : Type} {f : α → Except String β} :
    ∀ {l : List α} {out : List β}, exMap f l = .ok out →
      ∀ (i : Nat) (a : α), l[i]? = some a → ∃ b, out[i]? = some b ∧ f a = .ok b := by
  intro l
  induction l with
  | nil => intro out h i a ha; simp at ha
  | cons x rest ih =>
    intro out h i a ha
    simp only [exMap] at h
    cases hf : f x with
    | error s => rw [hf] at h; exact absurd h (by simp)
    | ok b0 =>
      rw [hf] at h
      cases hrest : exMap f rest with
      | error s => rw [hrest] at h; exact absurd h (by simp)
      | ok l' =>
        rw [hrest] at h
        simp only [Except.ok.injEq] at h
        subst h
        cases i with
        | zero =>
          simp only [List.getElem?_cons_zero, Option.some.injEq] at ha
          exact ⟨b0, by simp, ha ▸ hf⟩
        | succ n =>
          simp only [List.getElem?_cons_succ] at ha ⊢
          exact ih hrest n a ha

theorem exMap_ok_of_forall {α β : Type} {f : α → Except String β} (g : α → β) :
    ∀ {l : List α}, (∀ a ∈ l, f a = .ok (g a)) → exMap f l = .ok (l.map g) := by
  intro l
  induction l with
  | nil => intro _; simp [exMap]
  | cons a rest ih =>
    intro h
    have ha := h a (List.mem_cons_self _ _)
    have hrest := ih (fun a' ha' => h a' (List.mem_cons_of_mem _ ha'))
    simp [exMap, ha, hrest]

theorem exMap_ok_all {α β : Type} {f : α → Except String β} :
    ∀ {l : List α}, (∀ a ∈ l, ∃ b, f a = .ok b) → ∃ out, exMap f l = .ok out := by
  intro l
  induction l with
  | nil => intro _; exact ⟨[], rfl⟩
  | cons a rest ih =>
    intro h
    rcases h a (List.mem_cons_self _ _) with ⟨b, hb⟩
    rcases ih (fun a' ha' => h a' (List.mem_cons_of_mem _ ha')) with ⟨out, hout⟩
    exact ⟨b :: out, by simp [exMap, hb, hout]⟩

theorem exMap_ok_getLast {α β : Type} {f : α → Except String β} :
    ∀ {l : List α} {out : List β}, exMap f l = .ok out →
      ∀ a, l.getLast? = some a → ∃ b, out.getLast? = some b ∧ f a = .ok b := by
  intro l
  induction l with
  | nil => intro out h a ha; simp at ha
  | cons x rest ih =>
    intro out h a ha
    simp only [exMap] at h
    cases hf : f x with
    | error s => rw [hf] at h; exact absurd h (by simp)
    | ok b0 =>
      rw [hf] at h
      cases hrest : exMap f rest with
      | error s => rw [hrest] at h; exact absurd h (by simp)
      | ok l' =>
        rw [hrest] at h
        simp only [Except.ok.injEq] at h
        subst h
        cases rest with
        | nil =>
          simp only [exMap, Except.ok.injEq] at hrest
          subst hrest
          simp only [List.getLast?_singleton, Option.some.injEq] at ha ⊢
          exact ⟨b0, rfl, ha ▸ hf⟩
        | cons y rest' =>
          have hlen := exMap_ok_length hrest
          cases l' with
          | nil => simp at hlen
          | cons b1 l'' =>
            rw [List.getLast?_cons_cons] at ha
            rcases ih hrest a ha with ⟨b, hb, hfb⟩
            exact ⟨b, by rw [List.getLast?_cons_cons]; exact hb, hfb⟩

theorem flaggedIdx_ge : ∀ (ps : List (Row × Bool)) (i j : Nat), j ∈ flaggedIdx i ps → i ≤ j := by
  intro ps
  induction ps with
  | nil => intro i j h; simp [flaggedIdx] at h
  | cons p rest ih =>
    intro i j h
    simp only [flaggedIdx] at h
    by_cases hp : p.2
    · rw [if_pos hp] at h
      rcases List.mem_cons.mp h with h | h
      · omega
      · have := ih (i + 1) j h; omega
    · rw [if_neg hp] at h
      have := ih (i + 1) j h; omega

theorem flaggedIdx_nil_iff : ∀ (ps : List (Row × Bool)) (i : Nat),
    flaggedIdx i ps = [] ↔ ∀ p ∈ ps, p.2 = false := by
  intro ps
  induction ps with
  | nil => intro i; simp [flaggedIdx]
  | cons p rest ih =>
    intro i
    simp only [flaggedIdx]
    by_cases hp : p.2
    · rw [if_pos hp]
      simp only [List.mem_cons]
      constructor
      · intro h; exact absurd h (by simp)
      · intro h; exact absurd (h p (Or.inl rfl)) (by simp [hp])
    · rw [if_neg hp]
      rw [ih (i + 1)]
      constructor
      · intro h p' hp'
        rcases List.mem_cons.mp hp' with h' | h'
        · subst h'; exact Bool.eq_false_iff.mpr hp
        · exact h p' h'
      · intro h p' hp'
        exact h p' (List.mem_cons_of_mem _ hp')

theorem dropFlagged : ∀ (ps : List (Row × Bool)) (i : Nat) (idxs : List Nat),
    (∀ j, i ≤ j → (j ∈ idxs ↔ j ∈ flaggedIdx i ps)) →
    dropIndicesFrom idxs i (ps.map Prod.fst) = (ps.filter (fun p => !p.2)).map Prod.fst := by
  intro ps
  induction ps with
  | nil => intro i idxs _; simp [dropIndicesFrom]
  | cons p rest ih =>
    intro i idxs hidx
    have hnext : ∀ j, i + 1 ≤ j → (j ∈ idxs ↔ j ∈ flaggedIdx (i + 1) rest) := by
      intro j hj
      have h1 := hidx j (by omega)
      simp only [flaggedIdx] at h1
      by_cases hp : p.2
      · rw [if_pos hp] at h1
        rw [h1, List.mem_cons]
        constructor
        · intro h
          rcases h with h | h
          · omega
          · exact h
        · intro h; exact Or.inr h
      · rw [if_neg hp] at h1; exact h1
    have hmem := hidx i le_rfl
    simp only [flaggedIdx] at hmem
    by_cases hp : p.2
    · rw [if_pos hp] at hmem
      have hin : i ∈ idxs := hmem.mpr (List.mem_cons_self _ _)
      simp only [List.map_cons, dropIndicesFrom, if_pos hin]
      rw [ih (i + 1) idxs hnext]
      simp [List.filter_cons, hp]
    · rw [if_neg hp] at hmem
      have hnotin : i ∉ idxs := by
        intro hin
        have := flaggedIdx_ge rest (i + 1) i (hmem.mp hin)
        omega
      simp only [List.map_cons, dropIndicesFrom, if_neg hnotin]
      rw [ih (i + 1) idxs hnext]
      simp [List.filter_cons, hp]

theorem checkLoop_to_exMap {counts : List (String × Int)} :
    ∀ {l : List Row} {i : Nat} {ds : List Row} {fy : List Nat},
      checkLoop counts l i = .ok (ds, fy) →
      ∃ ps, exMap (checkRow counts) l = .ok ps ∧ ds = ps.map Prod.fst ∧ fy = flaggedIdx i ps := by
  intro l
  induction l with
  | nil =>
    intro i ds fy h
    simp only [checkLoop, Except.ok.injEq, Prod.mk.injEq] at h
    exact ⟨[], rfl, by simp [← h.1], by simp [← h.2, flaggedIdx]⟩
  | cons r rest ih =>
    intro i ds fy h
    simp only [checkLoop] at h
    cases hr : checkRow counts r with
    | error s => rw [hr] at h; exact absurd h (by simp)
    | ok p =>
      rw [hr] at h
      cases hrest : checkLoop counts rest (i + 1) with
      | error s => rw [hrest] at h; exact absurd h (by simp)
      | ok q =>
        rw [hrest] at h
        simp only [Except.ok.injEq, Prod.mk.injEq] at h
        rcases ih hrest with ⟨ps, hps, hds, hfy⟩
        refine ⟨p :: ps, ?_, ?_, ?_⟩
        · simp [exMap, hr, hps]
        · simp [← h.1, hds]
        · simp only [flaggedIdx, ← h.2, hfy]

theorem exMap_to_checkLoop {counts : List (String × Int)} :
    ∀ {l : List Row} {ps : List (Row × Bool)}, exMap (checkRow counts) l = .ok ps →
      ∀ i, checkLoop counts l i = .ok (ps.map Prod.fst, flaggedIdx i ps) := by
  intro l
  induction l with
  | nil =>
    intro ps h i
    simp only [exMap, Except.ok.injEq] at h
    subst h
    simp [checkLoop, flaggedIdx]
  | cons r rest ih =>
    intro ps h i
    simp only [exMap] at h
    cases hr : checkRow counts r with
    | error s => rw [hr] at h; exact absurd h (by simp)
    | ok p =>
      rw [hr] at h
      cases hrest : exMap (checkRow counts) rest with
      | error s => rw [hrest] at h; exact absurd h (by simp)
      | ok ps' =>
        rw [hrest] at h
        simp only [Except.ok.injEq] at h
        subst h
        simp [checkLoop, hr, ih hrest (i + 1), flaggedIdx]

theorem lookupFc_ok_isSome {counts : List (String × Int)} {k : Option String} {v : Int}
    (h : lookupFc counts k = .ok v) : k.isSome := by
  cases k with
  | none => simp [lookupFc] at h
  | some s => rfl

theorem rowFaulty_eq_false {r : Row} : rowFaulty r = false ↔
    r.filename.isSome ∧ r.cls.isSome ∧
      ∃ b e, r.beginframe = some b ∧ r.endframe = some e ∧ 0 ≤ b ∧ b < e := by
  obtain ⟨fn, c, b, e⟩ := r
  cases fn <;> cases c <;> cases b <;> cases e <;> simp [rowFaulty]
  omega

theorem checkRow_ok_inv {counts : List (String × Int)} {r r1 : Row} {f : Bool}
    (h : checkRow counts r = .ok (r1, f)) :
    ∃ e fcv, r.endframe = some e ∧ lookupFc counts r.filename = .ok fcv ∧
      r1 = (if e > fcv then { r with endframe := some fcv } else r) ∧ f = rowFaulty r1 := by
  simp only [checkRow] at h
  cases he : r.endframe with
  | none => rw [he] at h; exact absurd h (by simp)
  | some e =>
    rw [he] at h
    cases hl : lookupFc counts r.filename with
    | error s => rw [hl] at h; exact absurd h (by simp)
    | ok fcv =>
      rw [hl] at h
      simp only [Except.ok.injEq, Prod.mk.injEq] at h
      obtain ⟨h1, h2⟩ := h
      subst h1
      exact ⟨e, fcv, rfl, rfl, rfl, h2.symm⟩

theorem checkRow_ok_clean {counts : List (String × Int)} {r r1 : Row}
    (h : checkRow counts r = .ok (r1, false)) : cleanRow counts r1 := by
  rcases checkRow_ok_inv h with ⟨e, fcv, he, hl, hr1, hf⟩
  rcases rowFaulty_eq_false.mp hf.symm with ⟨h1, h2, b, e', hb, he', hb0, hbe⟩
  refine ⟨h1, h2, b, e', fcv, hb, he', ?_, hb0, hbe, ?_⟩
  · by_cases hc : e > fcv
    · rw [hr1, if_pos hc]; exact hl
    · rw [hr1, if_neg hc]; exact hl
  · by_cases hc : e > fcv
    · rw [hr1, if_pos hc] at he'
      have hx : (some fcv : Option Int) = some e' := he'
      injection hx with hh
      omega
    · rw [hr1, if_neg hc] at he'
      rw [he] at he'
      injection he' with hh
      omega

theorem checkRow_clean_fix {counts : List (String × Int)} {r : Row}
    (h : cleanRow counts r) : checkRow counts r = .ok (r, false) := by
  obtain ⟨hfn, hcls, b, e, fcv, hb, he, hlook, hb0, hbe, hefc⟩ := h
  have hfaulty : rowFaulty r = false :=
    rowFaulty_eq_false.mpr ⟨hfn, hcls, b, e, hb, he, hb0, hbe⟩
  have hnotgt : ¬ e > fcv := by omega
  simp only [checkRow, he, hlook, if_neg hnotgt, hfaulty]

theorem checkDataset_ok_cases {counts : List (String × Int)} {table : List Row} {res : CheckResult}
    (h : checkDataset counts table = .ok res) :
    ∃ ps, exMap (checkRow counts) table = .ok ps ∧
      ((flaggedIdx 0 ps = [] ∧ res = ⟨ps.map Prod.fst, table, none⟩) ∨
       (flaggedIdx 0 ps ≠ [] ∧
         res = ⟨(ps.filter (fun p => !p.2)).map Prod.fst,
                (ps.filter (fun p => !p.2)).map Prod.fst, some table⟩)) := by
  simp only [checkDataset] at h
  split at h
  · exact absurd h (by simp)
  · rename_i ds fy hloop
    rcases checkLoop_to_exMap hloop with ⟨ps, hps, hds, hfy⟩
    refine ⟨ps, hps, ?_⟩
    by_cases hz : fy = []
    · rw [if_pos hz] at h
      simp only [Except.ok.injEq] at h
      exact Or.inl ⟨hfy ▸ hz, by rw [← h, hds]⟩
    · rw [if_neg hz] at h
      simp only [Except.ok.injEq] at h
      have hdrop : dropIndicesFrom fy 0 ds = (ps.filter (fun p => !p.2)).map Prod.fst := by
        rw [hds, hfy]
        exact dropFlagged ps 0 (flaggedIdx 0 ps) (fun j _ => Iff.rfl)
      exact Or.inr ⟨hfy ▸ hz, by rw [← h, hdrop]⟩

theorem checkDataset_cleaned {counts : List (String × Int)} {table : List Row} {res : CheckResult}
    (h : checkDataset counts table = .ok res) :
    ∃ ps, exMap (checkRow counts) table = .ok ps ∧
      res.cleaned = (ps.filter (fun p => !p.2)).map Prod.fst := by
  rcases checkDataset_ok_cases h with ⟨ps, hps, hcases⟩
  refine ⟨ps, hps, ?_⟩
  rcases hcases with ⟨hz, hres⟩ | ⟨_, hres⟩
  · have hall := (flaggedIdx_nil_iff ps 0).mp hz
    have : ps.filter (fun p => !p.2) = ps :=
      List.filter_eq_self.mpr (fun p hp => by simp [hall p hp])
    rw [hres, this]
  · rw [hres]

theorem cleanedAllClean {counts : List (String × Int)} {table : List Row} {res : CheckResult}
    (h : checkDataset counts table = .ok res) :
    ∀ r ∈ res.cleaned, cleanRow counts r := by
  rcases checkDataset_cleaned h with ⟨ps, hps, hcl⟩
  intro r hr
  rw [hcl] at hr
  rcases List.mem_map.mp hr with ⟨p, hpmem, hfst⟩
  have hp2 : p.2 = false := by
    have := (List.mem_filter.mp hpmem).2
    simpa using this
  have hpps := (List.mem_filter.mp hpmem).1
  rcases exMap_ok_mem hps p hpps with ⟨a, _, hfa⟩
  obtain ⟨p1, p2⟩ := p
  simp only at hfst hp2
  subst hfst; subst hp2
  exact checkRow_ok_clean hfa

/-- Claim C1 (corrected): for every row of the in-memory cleaned table the
validator computes (which is also the table written back whenever at least
one row is removed), no field is null and
`0 ≤ begin_frame < end_frame ≤ total_frame_count(filename)`.  The claim as
stated — about the table produced (persisted) by a run — fails, because when
no row is faulty `check_dataset` returns before writing, so an end frame
that was clamped only in memory survives on disk (see the
counterexample). -/
theorem c1_cleaned_invariant (counts : List (String × Int)) (table : List Row) (res : CheckResult)
    (h : checkDataset counts table = .ok res) :
    ∀ r ∈ res.cleaned, cleanRow counts r :=
  cleanedAllClean h

theorem c1_witness :
    cleanRow [("v", 100)] ⟨some "v", some 0, some 0, some 50⟩ :=
  c1_cleaned_invariant [("v", 100)] [⟨some "v", some 0, some 0, some 50⟩]
    ⟨[⟨some "v", some 0, some 0, some 50⟩], [⟨some "v", some 0, some 0, some 50⟩], none⟩
    (by rfl) _ (by simp)

/-- Claim C3 (confirmed): a row whose end frame exceeds the recorded frame
count of its video has it rewritten down to exactly that count — the clamp
is applied by the pass before and independently of the fault checks — and
the clamped row is kept (not dropped) provided it is complete, its begin
frame is non-negative and below the clamped end frame. -/
theorem c3_clamp_retained (counts : List (String × Int)) (table : List Row) (res : CheckResult)
    (i : Nat) (r : Row) (e fcv b : Int)
    (h : checkDataset counts table = .ok res)
    (hr : table[i]? = some r)
    (he : r.endframe = some e)
    (hfc : lookupFc counts r.filename = .ok fcv)
    (hgt : e > fcv)
    (hcls : r.cls.isSome)
    (hb : r.beginframe = some b) (hb0 : 0 ≤ b) (hlt : b < fcv) :
    checkRow counts r = .ok ({ r with endframe := some fcv }, false) ∧
      { r with endframe := some fcv } ∈ res.cleaned := by
  have hfaulty : rowFaulty { r with endframe := some fcv } = false :=
    rowFaulty_eq_false.mpr ⟨lookupFc_ok_isSome hfc, hcls, b, fcv, hb, rfl, hb0, hlt⟩
  have hcheck : checkRow counts r = .ok ({ r with endframe := some fcv }, false) := by
    simp only [checkRow, he, hfc, if_pos hgt, hfaulty]
  refine ⟨hcheck, ?_⟩
  rcases checkDataset_cleaned h with ⟨ps, hps, hcl⟩
  rcases exMap_ok_get hps i r hr with ⟨p, hpi, hpa⟩
  have hpmem : p ∈ ps := List.getElem?_mem hpi
  rw [hcheck] at hpa
  injection hpa with hp
  subst hp
  rw [hcl]
  exact List.mem_map.mpr ⟨_, List.mem_filter.mpr ⟨hpmem, by simp⟩, rfl⟩

theorem c3_witness :
    checkRow [("v", 100)] ⟨some "v", some 1, some 0, some 950⟩ =
        .ok (⟨some "v", some 1, some 0, some 100⟩, false) ∧
      (⟨some "v", some 1, some 0, some 100⟩ : Row) ∈
        (⟨[⟨some "v", some 1, some 0, some 100⟩],
          [⟨some "v", some 1, some 0, some 950⟩], none⟩ : CheckResult).cleaned :=
  c3_clamp_retained [("v", 100)] [⟨some "v", some 1, some 0, some 950⟩]
    ⟨[⟨some "v", some 1, some 0, some 100⟩], [⟨some "v", some 1, some 0, some 950⟩], none⟩
    0 ⟨some "v", some 1, some 0, some 950⟩ 950 100 0
    (by rfl) (by rfl) (by rfl) (by rfl) (by decide) (by rfl) (by rfl) (by decide) (by decide)

/-- Claim C5 (confirmed): the validator/repairer is idempotent — running the
pass again on the repaired table finds nothing faulty and returns the very
same table. -/
theorem c5_idempotent (counts : List (String × Int)) (table : List Row) (res : CheckResult)
    (h : checkDataset counts table = .ok res) :
    checkDataset counts res.cleaned = .ok ⟨res.cleaned, res.cleaned, none⟩ := by
  have hall : ∀ r ∈ res.cleaned, checkRow counts r = .ok (r, false) :=
    fun r hr => checkRow_clean_fix (cleanedAllClean h r hr)
  have hex : exMap (checkRow counts) res.cleaned =
      .ok (res.cleaned.map (fun r => (r, false))) :=
    exMap_ok_of_forall (fun r => (r, false)) hall
  have hloop := exMap_to_checkLoop hex 0
  have hfl : flaggedIdx 0 (res.cleaned.map (fun r => (r, false))) = [] :=
    (flaggedIdx_nil_iff _ _).mpr (by
      intro p hp
      rcases List.mem_map.mp hp with ⟨r, _, hrp⟩
      simp [← hrp])
  rw [hfl] at hloop
  simp only [checkDataset, hloop]
  rw [if_pos trivial]
  simp only [List.map_map]
  rw [show (Prod.fst ∘ fun r : Row => (r, false)) = id from rfl, List.map_id]

theorem c5_witness :
    checkDataset [("v", 100)]
        (⟨[⟨some "v", some 0, some 0, some 50⟩],
          [⟨some "v", some 0, some 0, some 50⟩],
          some [⟨some "v", some 0, some 0, some 50⟩, ⟨some "v", some 0, some 5, some 5⟩]⟩ :
            CheckResult).cleaned =
      .ok ⟨[⟨some "v", some 0, some 0, some 50⟩], [⟨some "v", some 0, some 0, some 50⟩], none⟩ :=
  c5_idempotent [("v", 100)]
    [⟨some "v", some 0, some 0, some 50⟩, ⟨some "v", some 0, some 5, some 5⟩]
    ⟨[⟨some "v", some 0, some 0, some 50⟩],
     [⟨some "v", some 0, some 0, some 50⟩],
     some [⟨some "v", some 0, some 0, some 50⟩, ⟨some "v", some 0, some 5, some 5⟩]⟩
    (by rfl)

/-- Claim C6 (confirmed): the run either removes no row — then the persisted
table is exactly the original and no backup exists — or removes at least one
row — then the backup is an exact copy of the pre-repair table and the
cleaned table replaces the original. -/
theorem c6_backup_iff_removed (counts : List (String × Int)) (table : List Row)
    (res : CheckResult) (h : checkDataset counts table = .ok res) :
    (res.backup = none ∧ res.fileAfter = table ∧ res.cleaned.length = table.length) ∨
      (res.backup = some table ∧ res.fileAfter = res.cleaned ∧
        res.cleaned.length < table.length) := by
  rcases checkDataset_ok_cases h with ⟨ps, hps, hcases⟩
  have hlen : ps.length = table.length := exMap_ok_length hps
  rcases hcases with ⟨_, hres⟩ | ⟨hnz, hres⟩
  · exact Or.inl ⟨by rw [hres], by rw [hres], by rw [hres]; simp [hlen]⟩
  · refine Or.inr ⟨by rw [hres], by rw [hres], ?_⟩
    have hex : ∃ p ∈ ps, p.2 = true := by
      by_contra hno
      push_neg at hno
      exact hnz ((flaggedIdx_nil_iff ps 0).mpr
        (fun p hp => by simpa using hno p hp))
    have : (ps.filter (fun p => !p.2)).length < ps.length := by
      rw [List.length_filter_lt_length_iff_exists]
      rcases hex with ⟨p, hp, hp2⟩
      exact ⟨p, hp, by simp [hp2]⟩
    rw [hres]
    simpa [hlen] using this

theorem c6_witness :
    ((⟨[⟨some "v", some 0, some 0, some 50⟩],
       [⟨some "v", some 0, some 0, some 50⟩],
       some [⟨some "v", some 0, some 9, some 9⟩, ⟨some "v", some 0, some 0, some 50⟩]⟩ :
         CheckResult).backup = none ∧
      (⟨[⟨some "v", some 0, some 0, some 50⟩],
        [⟨some "v", some 0, some 0, some 50⟩],
        some [⟨some "v", some 0, some 9, some 9⟩, ⟨some "v", some 0, some 0, some 50⟩]⟩ :
          CheckResult).fileAfter =
        [⟨some "v", some 0, some 9, some 9⟩, ⟨some "v", some 0, some 0, some 50⟩] ∧
      (⟨[⟨some "v", some 0, some 0, some 50⟩],
        [⟨some "v", some 0, some 0, some 50⟩],
        some [⟨some "v", some 0, some 9, some 9⟩, ⟨some "v", some 0, some 0, some 50⟩]⟩ :
          CheckResult).cleaned.length =
        ([⟨some "v", some 0, some 9, some 9⟩, ⟨some "v", some 0, some 0, some 50⟩] :
          List Row).length) ∨
    ((⟨[⟨some "v", some 0, some 0, some 50⟩],
       [⟨some "v", some 0, some 0, some 50⟩],
       some [⟨some "v", some 0, some 9, some 9⟩, ⟨some "v", some 0, some 0, some 50⟩]⟩ :
         CheckResult).backup =
        some [⟨some "v", some 0, some 9, some 9⟩, ⟨some "v", some 0, some 0, some 50⟩] ∧
      (⟨[⟨some "v", some 0, some 0, some 50⟩],
        [⟨some "v", some 0, some 0, some 50⟩],
        some [⟨some "v", some 0, some 9, some 9⟩, ⟨some "v", some 0, some 0, some 50⟩]⟩ :
          CheckResult).fileAfter =
        (⟨[⟨some "v", some 0, some 0, some 50⟩],
          [⟨some "v", some 0, some 0, some 50⟩],
          some [⟨some "v", some 0, some 9, some 9⟩, ⟨some "v", some 0, some 0, some 50⟩]⟩ :
            CheckResult).cleaned ∧
      (⟨[⟨some "v", some 0, some 0, some 50⟩],
        [⟨some "v", some 0, some 0, some 50⟩],
        some [⟨some "v", some 0, some 9, some 9⟩, ⟨some "v", some 0, some 0, some 50⟩]⟩ :
          CheckResult).cleaned.length <
        ([⟨some "v", some 0, some 9, some 9⟩, ⟨some "v", some 0, some 0, some 50⟩] :
          List Row).length) :=
  c6_backup_iff_removed [("v", 100)]
    [⟨some "v", some 0, some 9, some 9⟩, ⟨some "v", some 0, some 0, some 50⟩]
    ⟨[⟨some "v", some 0, some 0, some 50⟩],
     [⟨some "v", some 0, some 0, some 50⟩],
     some [⟨some "v", some 0, some 9, some 9⟩, ⟨some "v", some 0, some 0, some 50⟩]⟩
    (by rfl)

/-- Claim C10 (confirmed): the surviving rows appear in the output in input
order — the cleaned table is exactly the flag-filtered range-clamped input
(the code drops by collected index labels, which coincides with filtering by
the per-row fault flag), and in particular a sublist of the clamped table:
nothing is reordered, duplicated or modified beyond the clamp. -/
theorem c10_order_preserved (counts : List (String × Int)) (table : List Row)
    (res : CheckResult) (h : checkDataset counts table = .ok res) :
    ∃ ps, exMap (checkRow counts) table = .ok ps ∧
      res.cleaned = (ps.filter (fun p => !p.2)).map Prod.fst ∧
      res.cleaned.Sublist (ps.map Prod.fst) := by
  rcases checkDataset_cleaned h with ⟨ps, hps, hcl⟩
  exact ⟨ps, hps, hcl, hcl ▸ (List.filter_sublist ps).map Prod.fst⟩

theorem c10_witness :
    ∃ ps, exMap (checkRow [("v", 100)])
          [⟨some "v", some 0, some 9, some 9⟩, ⟨some "v", some 0, some 0, some 50⟩] = .ok ps ∧
      (⟨[⟨some "v", some 0, some 0, some 50⟩],
        [⟨some "v", some 0, some 0, some 50⟩],
        some [⟨some "v", some 0, some 9, some 9⟩, ⟨some "v", some 0, some 0, some 50⟩]⟩ :
          CheckResult).cleaned = (ps.filter (fun p => !p.2)).map Prod.fst ∧
      (⟨[⟨some "v", some 0, some 0, some 50⟩],
        [⟨some "v", some 0, some 0, some 50⟩],
        some [⟨some "v", some 0, some 9, some 9⟩, ⟨some "v", some 0, some 0, some 50⟩]⟩ :
          CheckResult).cleaned.Sublist (ps.map Prod.fst) :=
  c10_order_preserved [("v", 100)]
    [⟨some "v", some 0, some 9, some 9⟩, ⟨some "v", some 0, some 0, some 50⟩]
    ⟨[⟨some "v", some 0, some 0, some 50⟩],
     [⟨some "v", some 0, some 0, some 50⟩],
     some [⟨some "v", some 0, some 9, some 9⟩, ⟨some "v", some 0, some 0, some 50⟩]⟩
    (by rfl)

/-- Claim C4 (code bug): the validator is claimed never to raise for
data-quality defects such as null fields, yet on a row whose `endframe` cell
is null, line 56 of `dataset_checker.py` evaluates `int(dataset.iloc[i, 3])`
before the null check of line 65 can drop the row, and `int(NaN)` raises
`ValueError`.  The module docstring states that rows with missing values are
dropped, so the claim reflects the documented intent and the code is a slip.
This theorem evaluates the embedded code at the failing input. -/
theorem c4_null_endframe_raises :
    checkDataset [("v", 100)] [⟨some "v", some 0, some 0, none⟩] = .error "ValueError" := by
  rfl

/-- Claim C2 (confirmed): with the count table mapping the single video
`2024-01-01 00:00:00.0` to 1000 frames, one class-1 stream with a single
event at `2024-01-01 00:00:10`, fps 25, starting_frame 0, frame_interval 0
and end_frame_buffer 0, the merger pipeline returns exactly
(video, class 0, 0, 250) then (video, class 1, 250, 1000).  Times are the
Unix epoch microseconds of the two timestamps. -/
theorem c2_concrete_scenario :
    makeDataset [("2024-01-01 00:00:00.0", 1000)]
        (processFrameCount [("2024-01-01 00:00:00.0", 1000)] (fun _ => 1704067200000000))
        25 [processLogFiles [1704067210000000] 1] 0 0 0 =
      .ok [⟨"2024-01-01 00:00:00.0", 0, 0, 250⟩, ⟨"2024-01-01 00:00:00.0", 1, 250, 1000⟩] := by
  rfl

/-- Claim C1, counterexample to the claim as stated: a genuine merged table
(video A: 100 frames at t=0s, video B: 50 frames at t=8s, one class-1 log
event at t=2s, fps 25) whose middle row overshoots to end frame 200 > 100.
`check_dataset` clamps it in memory, finds no row faulty, and returns
without writing — so the table produced by the run (the persisted file)
still carries end_frame 200 > total_frame_count 100, violating the claimed
invariant. -/
theorem c1_counterexample :
    makeDataset [("A", 100), ("B", 50)]
        (processFrameCount [("A", 100), ("B", 50)] (fun s => if s = "A" then 0 else 8000000))
        25 [processLogFiles [2000000] 1] 0 0 0 =
      .ok [⟨"A", 0, 0, 50⟩, ⟨"A", 1, 50, 200⟩, ⟨"B", 1, 0, 50⟩] ∧
    checkDataset [("A", 100), ("B", 50)]
        (([⟨"A", 0, 0, 50⟩, ⟨"A", 1, 50, 200⟩, ⟨"B", 1, 0, 50⟩] : List DRow).map toRow) =
      .ok ⟨[⟨some "A", some 0, some 0, some 50⟩, ⟨some "A", some 1, some 50, some 100⟩,
            ⟨some "B", some 1, some 0, some 50⟩],
           ([⟨"A", 0, 0, 50⟩, ⟨"A", 1, 50, 200⟩, ⟨"B", 1, 0, 50⟩] : List DRow).map toRow,
           none⟩ ∧
    (([⟨"A", 0, 0, 50⟩, ⟨"A", 1, 50, 200⟩, ⟨"B", 1, 0, 50⟩] : List DRow).map toRow)[1]? =
      some ⟨some "A", some 1, some 50, some 200⟩ ∧
    lookupFc [("A", 100), ("B", 50)] (some "A") = .ok 100 ∧
    ¬ ((200 : Int) ≤ 100) := by
  exact ⟨rfl, rfl, rfl, rfl, by decide⟩

/-- Claim C8, counterexample to the claim as stated: same merged timeline as
the C1 scenario but with `end_frame_buffer = 50`.  The final row belongs to
video B (50 frames); `add_buffering` subtracts the buffer only from the row
preceding the filename change (row 1: 200 → 150), never from the last row,
whose end frame stays at the full frame count 50 instead of the claimed
`50 - 50 = 0`. -/
theorem c8_counterexample :
    makeDataset [("A", 100), ("B", 50)]
        (processFrameCount [("A", 100), ("B", 50)] (fun s => if s = "A" then 0 else 8000000))
        25 [processLogFiles [2000000] 1] 0 50 0 =
      .ok [⟨"A", 0, 0, 50⟩, ⟨"A", 1, 50, 150⟩, ⟨"B", 1, 0, 50⟩] ∧
    ([⟨"A", 0, 0, 50⟩, ⟨"A", 1, 50, 150⟩, ⟨"B", 1, 0, 50⟩] : List DRow).getLast? =
      some ⟨"B", 1, 0, 50⟩ ∧
    lookupFc [("A", 100), ("B", 50)] (some "B") = .ok 50 ∧
    ¬ ((50 : Int) = 50 - 50) := by
  exact ⟨rfl, rfl, rfl, by decide⟩

theorem modAt_length {α : Type} : ∀ (l : List α) (i : Nat) (g : α → α),
    (modAt l i g).length = l.length := by
  intro l
  induction l with
  | nil => intro i g; cases i <;> rfl
  | cons a rest ih =>
    intro i g
    cases i with
    | zero => rfl
    | succ n => simp [modAt, ih]

theorem modAt_getElem? {α : Type} : ∀ (l : List α) (i : Nat) (g : α → α) (k : Nat),
    (modAt l i g)[k]? = if k = i then (l[k]?).map g else l[k]? := by
  intro l
  induction l with
  | nil => intro i g k; simp [modAt]
  | cons a rest ih =>
    intro i g k
    cases i with
    | zero =>
      cases k with
      | zero => simp [modAt]
      | succ m => simp [modAt]
    | succ n =>
      cases k with
      | zero => simp [modAt]
      | succ m =>
        simp only [modAt, List.getElem?_cons_succ]
        rw [ih n g m]
        by_cases hm : m = n
        · rw [if_pos hm, if_pos (show m + 1 = n + 1 by omega)]
        · rw [if_neg hm, if_neg (show ¬ m + 1 = n + 1 by omega)]

theorem modAt_proj {α γ : Type} (proj : α → γ) (g : α → α)
    (hg : ∀ a, proj (g a) = proj a) (l : List α) (i k : Nat) :
    ((modAt l i g)[k]?).map proj = (l[k]?).map proj := by
  rw [modAt_getElem?]
  by_cases hk : k = i
  · rw [if_pos hk]
    cases l[k]? <;> simp [hg]
  · rw [if_neg hk]

theorem modAt_begin_fc (buf : List DRow) (i k : Nat) (x : Int) :
    ((modAt buf i (fun r => { r with beginframe := x }))[k]?).map
        (fun r => (r.filename, r.cls)) =
      (buf[k]?).map (fun r => (r.filename, r.cls)) :=
  modAt_proj (fun r => (r.filename, r.cls)) (fun r => { r with beginframe := x })
    (fun _ => rfl) buf i k

theorem modAt_end_fc (buf : List DRow) (i k : Nat) (x : Int) :
    ((modAt buf i (fun r => { r with endframe := x }))[k]?).map
        (fun r => (r.filename, r.cls)) =
      (buf[k]?).map (fun r => (r.filename, r.cls)) :=
  modAt_proj (fun r => (r.filename, r.cls)) (fun r => { r with endframe := x })
    (fun _ => rfl) buf i k

theorem modAt_begin_fe (buf : List DRow) (i k : Nat) (x : Int) :
    ((modAt buf i (fun r => { r with beginframe := x }))[k]?).map
        (fun r => (r.filename, r.endframe)) =
      (buf[k]?).map (fun r => (r.filename, r.endframe)) :=
  modAt_proj (fun r => (r.filename, r.endframe)) (fun r => { r with beginframe := x })
    (fun _ => rfl) buf i k

theorem foldlPreserveMem {β γ : Type} (P : γ → Prop) (f : γ → β → γ) :
    ∀ (l : List β) (s : γ), (∀ t b, b ∈ l → P t → P (f t b)) → P s → P (l.foldl f s) := by
  intro l
  induction l with
  | nil => intro s _ hs; exact hs
  | cons b rest ih =>
    intro s hstep hs
    exact ih (f s b) (fun t b' hb' => hstep t b' (List.mem_cons_of_mem _ hb'))
      (hstep s b (List.mem_cons_self _ _) hs)

theorem bufStep_length {dset : List DRow} {sf efb fi : Int} {buf : List DRow} (i : Nat) :
    (bufStep dset sf efb fi buf i).length = buf.length := by
  unfold bufStep
  split
  · rw [modAt_length]
  · split
    · rw [modAt_length, modAt_length]
    · split
      · rw [modAt_length, modAt_length]
      · rfl

theorem bufStep_filename_cls {dset : List DRow} {sf efb fi : Int} {buf : List DRow}
    (i k : Nat) :
    ((bufStep dset sf efb fi buf i)[k]?).map (fun r => (r.filename, r.cls)) =
      (buf[k]?).map (fun r => (r.filename, r.cls)) := by
  unfold bufStep
  split
  · exact modAt_begin_fc buf 0 k _
  · split
    · rw [modAt_begin_fc, modAt_end_fc]
    · split
      · rw [modAt_end_fc, modAt_begin_fc]
      · rfl

theorem addBuffering_length (d : List DRow) (sf efb fi : Int) :
    (addBuffering d sf efb fi).length = d.length := by
  unfold addBuffering
  refine foldlPreserveMem (fun buf : List DRow => buf.length = d.length) _ _ _ ?_ rfl
  intro t b _ ht
  rw [bufStep_length, ht]

theorem addBuffering_filename_cls (d : List DRow) (sf efb fi : Int) (k : Nat) :
    ((addBuffering d sf efb fi)[k]?).map (fun r => (r.filename, r.cls)) =
      (d[k]?).map (fun r => (r.filename, r.cls)) := by
  unfold addBuffering
  refine foldlPreserveMem
    (fun buf : List DRow => (buf[k]?).map (fun r => (r.filename, r.cls)) =
      (d[k]?).map (fun r => (r.filename, r.cls))) _ _ _ ?_ rfl
  intro t b _ ht
  rw [bufStep_filename_cls, ht]

theorem bufStep_last_frame {dset : List DRow} {sf efb fi : Int} {buf : List DRow}
    (i : Nat) (hi : i < dset.length)
    (hbuf : (buf[dset.length - 1]?).map (fun r => (r.filename, r.endframe)) =
      (dset[dset.length - 1]?).map (fun r => (r.filename, r.endframe))) :
    ((bufStep dset sf efb fi buf i)[dset.length - 1]?).map (fun r => (r.filename, r.endframe)) =
      (dset[dset.length - 1]?).map (fun r => (r.filename, r.endframe)) := by
  unfold bufStep
  split
  · rw [modAt_begin_fe]; exact hbuf
  · rename_i hne
    have hne0 : i ≠ 0 := hne
    have hIm : dset.length - 1 ≠ i - 1 := by omega
    split
    · rw [modAt_begin_fe, modAt_getElem?, if_neg hIm]
      exact hbuf
    · split
      · rw [modAt_getElem?, if_neg hIm, modAt_begin_fe]
        exact hbuf
      · exact hbuf

theorem addBuffering_last_frame (d : List DRow) (sf efb fi : Int) :
    ((addBuffering d sf efb fi)[d.length - 1]?).map (fun r => (r.filename, r.endframe)) =
      (d[d.length - 1]?).map (fun r => (r.filename, r.endframe)) := by
  unfold addBuffering
  refine foldlPreserveMem
    (fun buf : List DRow => (buf[d.length - 1]?).map (fun r => (r.filename, r.endframe)) =
      (d[d.length - 1]?).map (fun r => (r.filename, r.endframe))) _ _ _ ?_ rfl
  intro t b hb ht
  exact bufStep_last_frame b (List.mem_range.mp hb) ht

/-- Claim C9 (confirmed): `add_buffering` only changes the `beginframe` and
`endframe` columns — the output has the same number of rows and every row's
filename and class are identical to the input's at the same position. -/
theorem c9_addBuffering_frame_only (d : List DRow) (sf efb fi : Int) :
    (addBuffering d sf efb fi).length = d.length ∧
    ∀ k : Nat, ((addBuffering d sf efb fi)[k]?).map (fun r => (r.filename, r.cls)) =
      (d[k]?).map (fun r => (r.filename, r.cls)) :=
  ⟨addBuffering_length d sf efb fi, addBuffering_filename_cls d sf efb fi⟩

theorem resolveClass_frames (prev : Option MRow) (r : MRow) :
    (resolveClass prev r).filename = r.filename ∧
    (resolveClass prev r).beginframe = r.beginframe ∧
    (resolveClass prev r).endframe = r.endframe := by
  unfold resolveClass
  split
  · cases prev <;> exact ⟨rfl, rfl, rfl⟩
  · exact ⟨rfl, rfl, rfl⟩

theorem resolveClass_cls (prev : Option MRow) (r : MRow)
    (hprev : ∀ p, prev = some p → p.cls.isSome) : (resolveClass prev r).cls.isSome := by
  unfold resolveClass
  split
  · cases prev with
    | none => rfl
    | some p => exact hprev p rfl
  · rename_i h
    exact Option.ne_none_iff_isSome.mp h

theorem resolveFrames_filename {fc : List (String × Int)} {FPS : Int} {prev : Option MRow}
    {r : MRow} {next : Option MRow} {rfr : MRow}
    (h : resolveFrames fc FPS prev r next = .ok rfr) : rfr.filename = r.filename := by
  cases next with
  | none =>
    simp only [resolveFrames] at h
    cases hl : lookupFc fc r.filename with
    | error s => rw [hl] at h; exact absurd h (by simp)
    | ok v =>
      simp only [hl] at h
      by_cases hb : r.beginframe ≠ some 0
      · rw [if_pos hb] at h
        cases prev with
        | none => exact absurd h (by simp)
        | some p =>
          simp only [Except.ok.injEq] at h
          subst h; rfl
      · rw [if_neg hb] at h
        simp only [Except.ok.injEq] at h
        subst h; rfl
  | some nx =>
    simp only [resolveFrames] at h
    by_cases hbe : r.beginframe = none ∧ r.endframe = none
    · rw [if_pos hbe] at h
      cases prev with
      | none => exact absurd h (by simp)
      | some p =>
        simp only [Except.ok.injEq] at h
        subst h; rfl
    · rw [if_neg hbe] at h
      by_cases hnb : nx.beginframe = some 0
      · rw [if_pos hnb] at h
        cases hl : lookupFc fc r.filename with
        | error s => rw [hl] at h; exact absurd h (by simp)
        | ok v =>
          simp only [hl, Except.ok.injEq] at h
          subst h; rfl
      · rw [if_neg hnb] at h
        by_cases hpn : prev = none ∧ r.endframe = none
        · rw [if_pos hpn] at h
          simp only [Except.ok.injEq] at h
          subst h; rfl
        · rw [if_neg hpn] at h
          by_cases hb0 : r.beginframe = some 0 ∧ r.endframe = none
          · rw [if_pos hb0] at h
            simp only [Except.ok.injEq] at h
            subst h; rfl
          · rw [if_neg hb0] at h
            simp only [Except.ok.injEq] at h
            subst h; rfl

theorem resolveRow_filename {fc : List (String × Int)} {FPS : Int} {prev : Option MRow}
    {r : MRow} {next : Option MRow} {rf : MRow}
    (h : resolveRow fc FPS prev r next = .ok rf) : rf.filename = r.filename := by
  unfold resolveRow at h
  cases hf : resolveFrames fc FPS prev r next with
  | error s => rw [hf] at h; exact absurd h (by simp)
  | ok rfr =>
    rw [hf] at h
    simp only [Except.ok.injEq] at h
    subst h
    rw [(resolveClass_frames prev rfr).1]
    exact resolveFrames_filename hf

theorem resolveFrames_ok (fc : List (String × Int)) (FPS : Int) (prev : Option MRow)
    (r : MRow) (next : Option MRow) (v : Int)
    (hv : lookupFc fc r.filename = .ok v)
    (hs : videoShaped r ∨ (filledShaped r ∧ r.filename.isSome))
    (hprev : ∀ p, prev = some p → p.endframe.isSome)
    (hfirst : prev = none → videoShaped r) :
    ∃ rfr, resolveFrames fc FPS prev r next = .ok rfr ∧
      rfr.cls = r.cls ∧ rfr.beginframe.isSome ∧ rfr.endframe.isSome := by
  have hfn : r.filename.isSome := by
    rcases hs with h | h
    · exact h.1
    · exact h.2
  cases next with
  | none =>
    simp only [resolveFrames, hv]
    by_cases hb : r.beginframe ≠ some 0
    · rw [if_pos hb]
      cases hp : prev with
      | none => exact absurd (hfirst hp).2.1 hb
      | some p =>
        obtain ⟨pe, hpe⟩ := Option.isSome_iff_exists.mp (hprev p hp)
        exact ⟨_, rfl, rfl, by simp [hpe], by simp⟩
    · rw [if_neg hb]
      push_neg at hb
      exact ⟨_, rfl, rfl, by simp [hb], by simp⟩
  | some nx =>
    simp only [resolveFrames]
    by_cases hbe : r.beginframe = none ∧ r.endframe = none
    · rw [if_pos hbe]
      cases hp : prev with
      | none =>
        have := (hfirst hp).2.1
        rw [hbe.1] at this
        exact absurd this (by simp)
      | some p =>
        obtain ⟨pe, hpe⟩ := Option.isSome_iff_exists.mp (hprev p hp)
        exact ⟨_, rfl, rfl, by simp [hpe], by simp [hpe]⟩
    · have hvid : videoShaped r := by
        rcases hs with h | h
        · exact h
        · exact absurd ⟨h.1.2.1, h.1.2.2⟩ hbe
      by_cases hnb : nx.beginframe = some 0
      · rw [if_neg hbe, if_pos hnb]
        simp only [hv]
        exact ⟨_, rfl, rfl, by simp [hvid.2.1], by simp⟩
      · rw [if_neg hbe, if_neg hnb]
        by_cases hpn : prev = none ∧ r.endframe = none
        · rw [if_pos hpn]
          exact ⟨_, rfl, rfl, by simp [hvid.2.1], by simp⟩
        · rw [if_neg hpn, if_pos ⟨hvid.2.1, hvid.2.2⟩]
          exact ⟨_, rfl, rfl, by simp [hvid.2.1], by simp⟩

theorem resolveRow_ok (fc : List (String × Int)) (FPS : Int) (prev : Option MRow)
    (r : MRow) (next : Option MRow)
    (hs : videoShaped r ∨ (filledShaped r ∧ r.filename.isSome))
    (hfc : ∃ v, lookupFc fc r.filename = .ok v)
    (hprev : ∀ p, prev = some p → p.endframe.isSome ∧ p.cls.isSome)
    (hfirst : prev = none → videoShaped r) :
    ∃ rf, resolveRow fc FPS prev r next = .ok rf ∧ resolvedRow rf := by
  obtain ⟨v, hv⟩ := hfc
  obtain ⟨rfr, hfr, hcls, hb, he⟩ :=
    resolveFrames_ok fc FPS prev r next v hv hs (fun p hp => (hprev p hp).1) hfirst
  have hfn : rfr.filename = r.filename := resolveFrames_filename hfr
  refine ⟨resolveClass prev rfr, ?_, ?_, ?_, ?_, ?_⟩
  · simp only [resolveRow, hfr]
  · rw [(resolveClass_frames prev rfr).1, hfn]
    rcases hs with h | h
    · exact h.1
    · exact h.2
  · exact resolveClass_cls prev rfr (fun p hp => (hprev p hp).2)
  · rw [(resolveClass_frames prev rfr).2.1]
    exact hb
  · rw [(resolveClass_frames prev rfr).2.2]
    exact he

theorem resolveAll_length {fc : List (String × Int)} {FPS : Int} :
    ∀ {l : List MRow} {prev : Option MRow} {out : List MRow},
      resolveAll fc FPS prev l = .ok out → out.length = l.length := by
  intro l
  induction l with
  | nil =>
    intro prev out h
    simp only [resolveAll, Except.ok.injEq] at h
    simp [← h]
  | cons r rest ih =>
    intro prev out h
    simp only [resolveAll] at h
    cases hrow : resolveRow fc FPS prev r rest.head? with
    | error s => rw [hrow] at h; exact absurd h (by simp)
    | ok r1 =>
      simp only [hrow] at h
      cases hrest : resolveAll fc FPS (some r1) rest with
      | error s => rw [hrest] at h; exact absurd h (by simp)
      | ok rest1 =>
        simp only [hrest, Except.ok.injEq] at h
        subst h
        simp [ih hrest]

theorem resolveAll_ok (fc : List (String × Int)) (FPS : Int) :
    ∀ (l : List MRow) (prev : Option MRow),
      (∀ q ∈ l, videoShaped q ∨ (filledShaped q ∧ q.filename.isSome)) →
      (∀ q ∈ l, ∃ v, lookupFc fc q.filename = .ok v) →
      (∀ p, prev = some p → p.endframe.isSome ∧ p.cls.isSome) →
      (∀ q, prev = none → l.head? = some q → videoShaped q) →
      ∃ out, resolveAll fc FPS prev l = .ok out ∧ ∀ rf ∈ out, resolvedRow rf := by
  intro l
  induction l with
  | nil => intro prev _ _ _ _; exact ⟨[], rfl, by simp⟩
  | cons r rest ih =>
    intro prev hs hfc hprev hfirst
    obtain ⟨rf, hrf, hres⟩ := resolveRow_ok fc FPS prev r rest.head?
      (hs r (List.mem_cons_self _ _)) (hfc r (List.mem_cons_self _ _)) hprev
      (fun hp => hfirst r hp rfl)
    obtain ⟨out', hout', hres'⟩ := ih (some rf)
      (fun q hq => hs q (List.mem_cons_of_mem _ hq))
      (fun q hq => hfc q (List.mem_cons_of_mem _ hq))
      (fun p hp => by
        injection hp with hp
        subst hp
        exact ⟨hres.2.2.2, hres.2.1⟩)
      (fun q hq => by simp at hq)
    refine ⟨rf :: out', by simp only [resolveAll, hrf, hout'], ?_⟩
    intro x hx
    rcases List.mem_cons.mp hx with hx | hx
    · subst hx; exact hres
    · exact hres' x hx

theorem resolveRow_last {fc : List (String × Int)} {FPS : Int} {prev : Option MRow}
    {r : MRow} {rf : MRow} (h : resolveRow fc FPS prev r none = .ok rf) :
    ∃ v, lookupFc fc r.filename = .ok v ∧ rf.endframe = some v := by
  unfold resolveRow at h
  cases hf : resolveFrames fc FPS prev r none with
  | error s => rw [hf] at h; exact absurd h (by simp)
  | ok rfr =>
    rw [hf] at h
    simp only [Except.ok.injEq] at h
    subst h
    simp only [resolveFrames] at hf
    cases hl : lookupFc fc r.filename with
    | error s => rw [hl] at hf; exact absurd hf (by simp)
    | ok v =>
      simp only [hl] at hf
      refine ⟨v, rfl, ?_⟩
      rw [(resolveClass_frames prev rfr).2.2]
      by_cases hb : r.beginframe ≠ some 0
      · rw [if_pos hb] at hf
        cases prev with
        | none => exact absurd hf (by simp)
        | some p =>
          simp only [Except.ok.injEq] at hf
          subst hf; rfl
      · rw [if_neg hb] at hf
        simp only [Except.ok.injEq] at hf
        subst hf; rfl

theorem resolveAll_last {fc : List (String × Int)} {FPS : Int} :
    ∀ {l : List MRow} {prev : Option MRow} {out : List MRow},
      resolveAll fc FPS prev l = .ok out →
      ∀ rl, l.getLast? = some rl →
        ∃ rf v, out.getLast? = some rf ∧ lookupFc fc rl.filename = .ok v ∧
          rf.endframe = some v ∧ rf.filename = rl.filename := by
  intro l
  induction l with
  | nil => intro prev out _ rl hrl; simp at hrl
  | cons r rest ih =>
    intro prev out h rl hrl
    simp only [resolveAll] at h
    cases hrow : resolveRow fc FPS prev r rest.head? with
    | error s => rw [hrow] at h; exact absurd h (by simp)
    | ok r1 =>
      simp only [hrow] at h
      cases hrest : resolveAll fc FPS (some r1) rest with
      | error s => rw [hrest] at h; exact absurd h (by simp)
      | ok rest1 =>
        simp only [hrest, Except.ok.injEq] at h
        subst h
        cases rest with
        | nil =>
          have hrest1 : rest1 = [] := by
            have := resolveAll_length hrest
            cases rest1 with
            | nil => rfl
            | cons b bs => simp at this
          subst hrest1
          simp only [List.getLast?_singleton, Option.some.injEq] at hrl
          subst hrl
          obtain ⟨v, hv, hend⟩ := resolveRow_last hrow
          exact ⟨r1, v, by simp, hv, hend, resolveRow_filename hrow⟩
        | cons s rest' =>
          rw [List.getLast?_cons_cons] at hrl
          obtain ⟨rf, v, hlast, hv, hend, hfn⟩ := ih hrest rl hrl
          have hne : rest1 ≠ [] := by
            have := resolveAll_length hrest
            intro hh
            subst hh
            simp at this
          cases rest1 with
          | nil => exact absurd rfl hne
          | cons b bs =>
            exact ⟨rf, v, by rw [List.getLast?_cons_cons]; exact hlast, hv, hend, hfn⟩

theorem resolveRow_dup {fc : List (String × Int)} {FPS : Int} {prev : Option MRow}
    {r nx : MRow} {rf : MRow}
    (h : resolveRow fc FPS prev r (some nx) = .ok rf)
    (hb : r.beginframe = none) (he : r.endframe = none) (ht : nx.time = r.time) :
    rf.beginframe = rf.endframe := by
  unfold resolveRow at h
  cases hf : resolveFrames fc FPS prev r (some nx) with
  | error s => rw [hf] at h; exact absurd h (by simp)
  | ok rfr =>
    rw [hf] at h
    simp only [Except.ok.injEq] at h
    subst h
    rw [(resolveClass_frames prev rfr).2.1, (resolveClass_frames prev rfr).2.2]
    simp only [resolveFrames] at hf
    rw [if_pos ⟨hb, he⟩] at hf
    cases prev with
    | none => exact absurd hf (by simp)
    | some p =>
      simp only [Except.ok.injEq] at hf
      subst hf
      show p.endframe = p.endframe.map (fun pe => pe + tdSeconds (nx.time - r.time) * FPS)
      rw [ht, sub_self]
      have h0 : tdSeconds 0 = 0 := rfl
      rw [h0]
      cases p.endframe with
      | none => rfl
      | some pe => simp

theorem resolveAll_dup {fc : List (String × Int)} {FPS : Int} :
    ∀ {l : List MRow} {prev : Option MRow} {out : List MRow},
      resolveAll fc FPS prev l = .ok out →
      ∀ (i : Nat) (r nx : MRow), l[i]? = some r → l[i + 1]? = some nx →
        r.beginframe = none → r.endframe = none → nx.time = r.time →
        ∃ rf, out[i]? = some rf ∧ rf.beginframe = rf.endframe := by
  intro l
  induction l with
  | nil => intro prev out _ i r nx hr _ _ _ _; simp at hr
  | cons q rest ih =>
    intro prev out h i r nx hr hnx hb he ht
    simp only [resolveAll] at h
    cases hrow : resolveRow fc FPS prev q rest.head? with
    | error s => rw [hrow] at h; exact absurd h (by simp)
    | ok r1 =>
      simp only [hrow] at h
      cases hrest : resolveAll fc FPS (some r1) rest with
      | error s => rw [hrest] at h; exact absurd h (by simp)
      | ok rest1 =>
        simp only [hrest, Except.ok.injEq] at h
        subst h
        cases i with
        | zero =>
          simp only [List.getElem?_cons_zero, Option.some.injEq] at hr
          subst hr
          simp only [List.getElem?_cons_succ] at hnx
          have hhead : rest.head? = some nx := by
            rw [List.head?_eq_getElem?]
            exact hnx
          rw [hhead] at hrow
          exact ⟨r1, by simp, resolveRow_dup hrow hb he ht⟩
        | succ n =>
          simp only [List.getElem?_cons_succ] at hr hnx
          obtain ⟨rf, hrf, hbe⟩ := ih hrest n r nx hr hnx hb he ht
          exact ⟨rf, by simpa using hrf, hbe⟩

theorem toDRow_ok_of_resolved {r : MRow} (h : resolvedRow r) : ∃ d, toDRow r = .ok d := by
  obtain ⟨h1, h2, h3, h4⟩ := h
  obtain ⟨f, hf⟩ := Option.isSome_iff_exists.mp h1
  obtain ⟨c, hc⟩ := Option.isSome_iff_exists.mp h2
  obtain ⟨b, hb⟩ := Option.isSome_iff_exists.mp h3
  obtain ⟨e, he⟩ := Option.isSome_iff_exists.mp h4
  exact ⟨⟨f, c, b, e⟩, by simp [toDRow, hf, hc, hb, he]⟩

theorem toDRow_fields {r : MRow} {d : DRow} (h : toDRow r = .ok d) :
    r.filename = some d.filename ∧ r.cls = some d.cls ∧
      r.beginframe = some d.beginframe ∧ r.endframe = some d.endframe := by
  unfold toDRow at h
  split at h
  · rename_i f c b e hf hc hb he
    simp only [Except.ok.injEq] at h
    subst h
    exact ⟨hf, hc, hb, he⟩
  · exact absurd h (by simp)

theorem ffill_shapes : ∀ (cur : Option String) (l : List MRow),
    (∀ q ∈ l, videoShaped q ∨ logShaped q) →
    ∀ q ∈ ffillAux cur l, videoShaped q ∨ filledShaped q := by
  intro cur l
  induction l generalizing cur with
  | nil => intro _ q hq; simp [ffillAux] at hq
  | cons r rest ih =>
    intro hl q hq
    simp only [ffillAux] at hq
    cases hf : r.filename with
    | some s =>
      simp only [hf] at hq
      rcases List.mem_cons.mp hq with hq | hq
      · subst hq
        rcases hl r (List.mem_cons_self _ _) with h | h
        · exact Or.inl ⟨by simp, h.2.1, h.2.2⟩
        · rw [h.1] at hf
          exact absurd hf (by simp)
      · exact ih (some s) (fun q' hq' => hl q' (List.mem_cons_of_mem _ hq')) q hq
    | none =>
      simp only [hf] at hq
      rcases List.mem_cons.mp hq with hq | hq
      · subst hq
        rcases hl r (List.mem_cons_self _ _) with h | h
        · have hvs := h.1
          rw [hf] at hvs
          exact absurd hvs (by simp)
        · exact Or.inr ⟨h.2.1, h.2.2.1, h.2.2.2⟩
      · exact ih cur (fun q' hq' => hl q' (List.mem_cons_of_mem _ hq')) q hq

theorem ffill_provenance : ∀ (cur : Option String) (l : List MRow) (q : MRow),
    q ∈ ffillAux cur l →
    q.filename = cur ∨ ∃ x ∈ l, q.filename = x.filename ∧ x.filename.isSome := by
  intro cur l
  induction l generalizing cur with
  | nil => intro q hq; simp [ffillAux] at hq
  | cons r rest ih =>
    intro q hq
    simp only [ffillAux] at hq
    cases hf : r.filename with
    | some s =>
      simp only [hf] at hq
      rcases List.mem_cons.mp hq with hq | hq
      · subst hq
        exact Or.inr ⟨r, List.mem_cons_self _ _, by simp [hf], by simp [hf]⟩
      · rcases ih (some s) q hq with h | ⟨x, hx, hqx, hxs⟩
        · exact Or.inr ⟨r, List.mem_cons_self _ _, by rw [h, hf], by simp [hf]⟩
        · exact Or.inr ⟨x, List.mem_cons_of_mem _ hx, hqx, hxs⟩
    | none =>
      simp only [hf] at hq
      rcases List.mem_cons.mp hq with hq | hq
      · subst hq
        exact Or.inl rfl
      · rcases ih cur q hq with h | ⟨x, hx, hqx, hxs⟩
        · exact Or.inl h
        · exact Or.inr ⟨x, List.mem_cons_of_mem _ hx, hqx, hxs⟩

theorem ffill_head_video : ∀ (l : List MRow),
    (∀ q ∈ l, videoShaped q ∨ logShaped q) →
    ∀ q, ((ffillAux none l).filter (fun x => x.filename.isSome)).head? = some q →
      videoShaped q := by
  intro l
  induction l with
  | nil => intro _ q hq; simp [ffillAux] at hq
  | cons r rest ih =>
    intro hl q hq
    simp only [ffillAux] at hq
    cases hf : r.filename with
    | some s =>
      simp only [hf] at hq
      rw [List.filter_cons_of_pos (by simp)] at hq
      simp only [List.head?_cons, Option.some.injEq] at hq
      subst hq
      rcases hl r (List.mem_cons_self _ _) with h | h
      · exact ⟨by simp, h.2.1, h.2.2⟩
      · rw [h.1] at hf
        exact absurd hf (by simp)
    | none =>
      simp only [hf] at hq
      rw [List.filter_cons_of_neg (by simp)] at hq
      exact ih (fun q' hq' => hl q' (List.mem_cons_of_mem _ hq')) q hq

theorem ffill_time : ∀ (cur : Option String) (l : List MRow),
    (ffillAux cur l).map (fun q => q.time) = l.map (fun q => q.time) := by
  intro cur l
  induction l generalizing cur with
  | nil => rfl
  | cons r rest ih =>
    cases hf : r.filename <;> simp [ffillAux, hf, ih]

theorem sortedInput_shapes (processed : List MRow) (args : List (List MRow))
    (hp : ∀ q ∈ processed, videoShaped q)
    (ha : ∀ L ∈ args, ∀ q ∈ L, logShaped q) :
    ∀ x ∈ List.insertionSort timeLE (processed ++ args.flatten),
      videoShaped x ∨ logShaped x := by
  intro x hx
  have hx' : x ∈ processed ++ args.flatten :=
    (List.perm_insertionSort timeLE _).mem_iff.mp hx
  rcases List.mem_append.mp hx' with h | h
  · exact Or.inl (hp x h)
  · rcases List.mem_flatten.mp h with ⟨L, hL, hxL⟩
    exact Or.inr (ha L hL x hxL)

theorem mergedRows_shapes (processed : List MRow) (args : List (List MRow))
    (hp : ∀ q ∈ processed, videoShaped q)
    (ha : ∀ L ∈ args, ∀ q ∈ L, logShaped q) :
    ∀ q ∈ mergedRows processed args,
      videoShaped q ∨ (filledShaped q ∧ q.filename.isSome) := by
  intro q hq
  unfold mergedRows at hq
  have hmem := List.mem_filter.mp hq
  have hsome : q.filename.isSome := by simpa using hmem.2
  rcases ffill_shapes none _ (sortedInput_shapes processed args hp ha) q hmem.1 with h | h
  · exact Or.inl h
  · exact Or.inr ⟨h, hsome⟩

theorem mergedRows_coverage (processed : List MRow) (args : List (List MRow))
    (_hp : ∀ q ∈ processed, videoShaped q)
    (ha : ∀ L ∈ args, ∀ q ∈ L, logShaped q) :
    ∀ q ∈ mergedRows processed args, ∃ x ∈ processed, q.filename = x.filename := by
  intro q hq
  unfold mergedRows at hq
  have hmem := List.mem_filter.mp hq
  have hsome : q.filename.isSome := by simpa using hmem.2
  rcases ffill_provenance none _ q hmem.1 with h | ⟨x, hx, hqx, hxs⟩
  · rw [h] at hsome
    simp at hsome
  · have hx' : x ∈ processed ++ args.flatten :=
      (List.perm_insertionSort timeLE _).mem_iff.mp hx
    rcases List.mem_append.mp hx' with h | h
    · exact ⟨x, h, hqx⟩
    · rcases List.mem_flatten.mp h with ⟨L, hL, hxL⟩
      rw [(ha L hL x hxL).1] at hxs
      exact absurd hxs (by simp)

theorem mergedRows_head (processed : List MRow) (args : List (List MRow))
    (hp : ∀ q ∈ processed, videoShaped q)
    (ha : ∀ L ∈ args, ∀ q ∈ L, logShaped q) :
    ∀ q, (mergedRows processed args).head? = some q → videoShaped q := by
  intro q hq
  exact ffill_head_video _ (sortedInput_shapes processed args hp ha) q hq

theorem mergedRows_sorted (processed : List MRow) (args : List (List MRow)) :
    (mergedRows processed args).Pairwise timeLE := by
  have h0 : (List.insertionSort timeLE (processed ++ args.flatten)).Pairwise timeLE :=
    List.sorted_insertionSort timeLE _
  have h2 : ((List.insertionSort timeLE (processed ++ args.flatten)).map
      (fun q => q.time)).Pairwise (· ≤ ·) :=
    List.pairwise_map.mpr h0
  rw [← ffill_time none] at h2
  have h3 := List.pairwise_map.mp h2
  have h4 : (ffillAux none (List.insertionSort timeLE
      (processed ++ args.flatten))).Pairwise timeLE :=
    h3.imp (fun hab => hab)
  exact h4.filter _

theorem pairwise_adj {l : List MRow} (h : l.Pairwise timeLE) :
    ∀ (i : Nat) (a b : MRow), l[i]? = some a → l[i + 1]? = some b → a.time ≤ b.time := by
  induction l with
  | nil => intro i a b ha _; simp at ha
  | cons x rest ih =>
    intro i a b ha hb
    rcases List.pairwise_cons.mp h with ⟨hx, hrest⟩
    cases i with
    | zero =>
      simp only [List.getElem?_cons_zero, Option.some.injEq] at ha
      subst ha
      simp only [List.getElem?_cons_succ] at hb
      exact hx b (List.getElem?_mem hb)
    | succ n =>
      simp only [List.getElem?_cons_succ] at ha hb
      exact ih hrest n a b ha hb

/-- Claim C7 (confirmed): when two consecutive merged events have elapsed
time ≤ 0 (after sorting this means duplicate timestamps) and the earlier of
them is an unresolved class-anchor row, the resolution pass of
`create_dataset` completes without raising — given well-shaped inputs whose
video filenames are all present in the frame-count table — and the affected
row comes out with `begin_frame ≥ end_frame`, left for the validator to
remove. -/
theorem c7_zero_elapsed (fc : List (String × Int)) (FPS : Int)
    (processed : List MRow) (args : List (List MRow)) (i : Nat) (r nx : MRow)
    (hp : ∀ q ∈ processed, videoShaped q)
    (ha : ∀ L ∈ args, ∀ q ∈ L, logShaped q)
    (hfc : ∀ q ∈ processed, ∃ v, lookupFc fc q.filename = .ok v)
    (hr : (mergedRows processed args)[i]? = some r)
    (hnx : (mergedRows processed args)[i + 1]? = some nx)
    (hb : r.beginframe = none) (he : r.endframe = none)
    (ht : nx.time ≤ r.time) :
    ∃ D, createDataset fc processed FPS args = .ok D ∧
      ∃ d, D[i]? = some d ∧ d.endframe ≤ d.beginframe := by
  have hshapes := mergedRows_shapes processed args hp ha
  have hcov : ∀ q ∈ mergedRows processed args, ∃ v, lookupFc fc q.filename = .ok v := by
    intro q hq
    rcases mergedRows_coverage processed args hp ha q hq with ⟨x, hx, hqx⟩
    rw [hqx]
    exact hfc x hx
  obtain ⟨out, hout, hres⟩ := resolveAll_ok fc FPS (mergedRows processed args) none
    hshapes hcov (fun p hp' => Option.noConfusion hp')
    (fun q _ hq => mergedRows_head processed args hp ha q hq)
  have hteq : nx.time = r.time :=
    le_antisymm ht (pairwise_adj (mergedRows_sorted processed args) i r nx hr hnx)
  obtain ⟨rf, hrf, hfe⟩ := resolveAll_dup hout i r nx hr hnx hb he hteq
  obtain ⟨D, hD⟩ :=
    exMap_ok_all (f := toDRow) (fun x hx => toDRow_ok_of_resolved (hres x hx))
  refine ⟨D, ?_, ?_⟩
  · simp only [createDataset, hout]
    exact hD
  · obtain ⟨d, hd, htd⟩ := exMap_ok_get hD i rf hrf
    rcases toDRow_fields htd with ⟨_, _, hdb, hde⟩
    refine ⟨d, hd, ?_⟩
    rw [hdb, hde] at hfe
    injection hfe with hh
    omega

theorem c7_witness :
    ∃ D, createDataset [("v", 100)] (processFrameCount [("v", 100)] (fun _ => 0)) 25
        [processLogFiles [5000000, 5000000] 1] = .ok D ∧
      ∃ d, D[1]? = some d ∧ d.endframe ≤ d.beginframe :=
  c7_zero_elapsed [("v", 100)] 25 (processFrameCount [("v", 100)] (fun _ => 0))
    [processLogFiles [5000000, 5000000] 1] 1
    ⟨5000000, some "v", some 1, none, none⟩ ⟨5000000, some "v", some 1, none, none⟩
    (by
      intro q hq
      simp only [processFrameCount, List.map_cons, List.map_nil,
        List.mem_singleton] at hq
      subst hq
      exact ⟨rfl, rfl, rfl⟩)
    (by
      intro L hL q hq
      simp only [List.mem_singleton] at hL
      subst hL
      simp only [processLogFiles, List.map_cons, List.map_nil, List.mem_cons,
        List.mem_singleton, List.not_mem_nil, or_false] at hq
      rcases hq with hq | hq <;> (subst hq; exact ⟨rfl, rfl, rfl, rfl⟩))
    (by
      intro q hq
      simp only [processFrameCount, List.map_cons, List.map_nil,
        List.mem_singleton] at hq
      subst hq
      exact ⟨100, rfl⟩)
    (by rfl) (by rfl) rfl rfl (by decide)

/-- Claim C8 (corrected): for every non-empty merged table the last row's
end frame after the full pipeline equals the `total_frame_count` of that
row's video — without the claimed subtraction of `end_frame_buffer`, which
`add_buffering` only ever applies to the row preceding a filename change and
never to the final row (see the counterexample). -/
theorem c8_last_row_framecount (fc : List (String × Int)) (FPS : Int)
    (processed : List MRow) (args : List (List MRow)) (sf efb fi : Int)
    (hp : ∀ q ∈ processed, videoShaped q)
    (ha : ∀ L ∈ args, ∀ q ∈ L, logShaped q)
    (hfc : ∀ q ∈ processed, ∃ v, lookupFc fc q.filename = .ok v)
    (hne : mergedRows processed args ≠ []) :
    ∃ D d v, makeDataset fc processed FPS args sf efb fi = .ok D ∧
      D.getLast? = some d ∧ lookupFc fc (some d.filename) = .ok v ∧ d.endframe = v := by
  have hshapes := mergedRows_shapes processed args hp ha
  have hcov : ∀ q ∈ mergedRows processed args, ∃ v, lookupFc fc q.filename = .ok v := by
    intro q hq
    rcases mergedRows_coverage processed args hp ha q hq with ⟨x, hx, hqx⟩
    rw [hqx]
    exact hfc x hx
  obtain ⟨out, hout, hres⟩ := resolveAll_ok fc FPS (mergedRows processed args) none
    hshapes hcov (fun p hp' => Option.noConfusion hp')
    (fun q _ hq => mergedRows_head processed args hp ha q hq)
  obtain ⟨rl, hrl⟩ : ∃ rl, (mergedRows processed args).getLast? = some rl :=
    Option.isSome_iff_exists.mp (List.getLast?_isSome.mpr hne)
  obtain ⟨rf, v, hlast, hv, hend, hfn⟩ := resolveAll_last hout rl hrl
  obtain ⟨D0, hD0⟩ :=
    exMap_ok_all (f := toDRow) (fun x hx => toDRow_ok_of_resolved (hres x hx))
  obtain ⟨d0, hd0, htd0⟩ := exMap_ok_getLast hD0 rf hlast
  rcases toDRow_fields htd0 with ⟨hdf, _, _, hde⟩
  have hdev : d0.endframe = v := by
    rw [hend] at hde
    injection hde with hh
    omega
  have hlk : lookupFc fc (some d0.filename) = .ok v := by
    rw [← hfn] at hv
    rw [hdf] at hv
    exact hv
  have hcd : createDataset fc processed FPS args = .ok D0 := by
    simp only [createDataset, hout]
    exact hD0
  have hmk : makeDataset fc processed FPS args sf efb fi =
      .ok (addBuffering D0 sf efb fi) := by
    simp only [makeDataset, hcd]
  have hlen := addBuffering_length D0 sf efb fi
  have hproj := addBuffering_last_frame D0 sf efb fi
  rw [List.getLast?_eq_getElem?] at hd0
  rw [hd0] at hproj
  cases hDl : (addBuffering D0 sf efb fi)[D0.length - 1]? with
  | none => rw [hDl] at hproj; simp at hproj
  | some d =>
    rw [hDl] at hproj
    simp only [Option.map_some'] at hproj
    injection hproj with hpair
    have hfn2 : d.filename = d0.filename := congrArg Prod.fst hpair
    have hen2 : d.endframe = d0.endframe := congrArg Prod.snd hpair
    refine ⟨addBuffering D0 sf efb fi, d, v, hmk, ?_, ?_, ?_⟩
    · rw [List.getLast?_eq_getElem?, hlen]
      exact hDl
    · rw [hfn2]
      exact hlk
    · rw [hen2, hdev]

theorem c8_witness :
    ∃ D d v, makeDataset [("w", 300)] (processFrameCount [("w", 300)] (fun _ => 0)) 25 []
        0 7 0 = .ok D ∧
      D.getLast? = some d ∧ lookupFc [("w", 300)] (some d.filename) = .ok v ∧
      d.endframe = v :=
  c8_last_row_framecount [("w", 300)] 25 (processFrameCount [("w", 300)] (fun _ => 0)) []
    0 7 0
    (by
      intro q hq
      simp only [processFrameCount, List.map_cons, List.map_nil,
        List.mem_singleton] at hq
      subst hq
      exact ⟨rfl, rfl, rfl⟩)
    (by intro L hL; simp at hL)
    (by
      intro q hq
      simp only [processFrameCount, List.map_cons, List.map_nil,
        List.mem_singleton] at hq
      subst hq
      exact ⟨300, rfl⟩)
    (by decide)

end DC
